import Mathlib

/-!
Verification of the cjworkbench browser client (JavaScript sources).

Shallow embedding conventions:
* JavaScript numbers are modelled exactly (`JSNum`: a rational, an infinity,
  or NaN; finite doubles are modelled as exact rationals and the IEEE-754
  signed zero is identified with zero).
* JavaScript strings are modelled as Lean `String`s.
* The tile-cache hook `useTiles` used by `src/assets/js/Report/Table.js` is an
  external collaborator whose implementation is not part of the source bundle;
  it is modelled from the specification as an explicit state machine
  (definitions marked "Modelled from the spec").
* Redux `dispatch` calls are modelled by returning the dispatched payload.
-/

/-! ### JavaScript numbers (`Table.js` arithmetic) -/

/-- A JavaScript number: an exact finite value, one of the two infinities,
or NaN.  Finite doubles are modelled as exact rationals. -/
inductive JSNum where
  | finite (q : ℚ)
  | posInf
  | negInf
  | nan
deriving DecidableEq

/-- JavaScript division `a / b`, including the division-by-zero cases
(`5 / 0 === Infinity`, `-5 / 0 === -Infinity`, `0 / 0` is NaN) and the
infinite operands.  Signed zeros are identified with `0`. -/
def jsDiv : JSNum → JSNum → JSNum
  | .nan, _ => .nan
  | _, .nan => .nan
  | .posInf, .posInf => .nan
  | .posInf, .negInf => .nan
  | .negInf, .posInf => .nan
  | .negInf, .negInf => .nan
  | .posInf, .finite b => if 0 ≤ b then .posInf else .negInf
  | .negInf, .finite b => if 0 ≤ b then .negInf else .posInf
  | .finite _, .posInf => .finite 0
  | .finite _, .negInf => .finite 0
  | .finite a, .finite b =>
      if b = 0 then
        if a = 0 then .nan else if 0 < a then .posInf else .negInf
      else .finite (a / b)

/-- JavaScript `Math.ceil`; infinities and NaN are returned unchanged. -/
def jsCeil : JSNum → JSNum
  | .finite q => .finite (⌈q⌉ : ℤ)
  | .posInf => .posInf
  | .negInf => .negInf
  | .nan => .nan

/-- The tile-grid dimensions computed by `Table` in
`src/assets/js/Report/Table.js` lines 31-32:

  `const nTileRows = Math.ceil(nRows / nRowsPerTile)`
  `const nTileColumns = Math.ceil(columns.length / nColumnsPerTile)`

`nColumns` stands for `columns.length`. -/
def tileCount (nRows nColumns nRowsPerTile nColumnsPerTile : JSNum) :
    JSNum × JSNum :=
  (jsCeil (jsDiv nRows nRowsPerTile), jsCeil (jsDiv nColumns nColumnsPerTile))

/-- Ceiling of an exact rational division of naturals is ceiling division. -/
lemma ceil_natCast_div (a b : ℕ) (hb : 0 < b) :
    ⌈(a : ℚ) / (b : ℚ)⌉ = ((a + b - 1) / b : ℕ) := by
  have hbq : (0 : ℚ) < (b : ℚ) := by exact_mod_cast hb
  have hmod := Nat.div_add_mod (a + b - 1) b
  have hlt := Nat.mod_lt (a + b - 1) hb
  have h1 : a ≤ b * ((a + b - 1) / b) := by omega
  have h2 : b * ((a + b - 1) / b) < a + b := by omega
  have h1q : (a : ℚ) ≤ (b : ℚ) * (((a + b - 1) / b : ℕ) : ℚ) := by exact_mod_cast h1
  have h2q : (b : ℚ) * (((a + b - 1) / b : ℕ) : ℚ) < (a : ℚ) + (b : ℚ) := by
    exact_mod_cast h2
  rw [Int.ceil_eq_iff]
  refine ⟨?_, ?_⟩
  · rw [lt_div_iff₀ hbq, Int.cast_natCast]
    nlinarith
  · rw [div_le_iff₀ hbq, Int.cast_natCast]
    nlinarith

/-- Claim C1: for all positive integers `nRows`, `nColumns`, `rowsPerTile`,
`columnsPerTile`, the tile-grid dimensions computed by `Table.js` equal
`ceil(nRows / rowsPerTile)` tile rows by `ceil(nColumns / columnsPerTile)`
tile columns; the ceilings are also characterised as the natural-number
ceiling divisions `(n + d - 1) / d`. -/
theorem tileCount_eq_ceil (nRows nColumns rowsPerTile columnsPerTile : ℕ)
    (_hn : 0 < nRows) (_hm : 0 < nColumns)
    (hr : 0 < rowsPerTile) (hc : 0 < columnsPerTile) :
    tileCount (.finite nRows) (.finite nColumns)
        (.finite rowsPerTile) (.finite columnsPerTile)
      = (.finite (⌈(nRows : ℚ) / (rowsPerTile : ℚ)⌉ : ℤ),
         .finite (⌈(nColumns : ℚ) / (columnsPerTile : ℚ)⌉ : ℤ))
    ∧ ⌈(nRows : ℚ) / (rowsPerTile : ℚ)⌉ = ((nRows + rowsPerTile - 1) / rowsPerTile : ℕ)
    ∧ ⌈(nColumns : ℚ) / (columnsPerTile : ℚ)⌉
        = ((nColumns + columnsPerTile - 1) / columnsPerTile : ℕ) := by
  have hrq : ((rowsPerTile : ℚ)) ≠ 0 := by exact_mod_cast hr.ne'
  have hcq : ((columnsPerTile : ℚ)) ≠ 0 := by exact_mod_cast hc.ne'
  refine ⟨?_, ceil_natCast_div _ _ hr, ceil_natCast_div _ _ hc⟩
  simp [tileCount, jsDiv, jsCeil, hrq, hcq]

/-- Witness for C1 at the spec's example: `nRows = 5, rowsPerTile = 2` gives 3
tile rows, and 12 columns at 5 per tile give 3 tile columns. -/
theorem tileCount_eq_ceil_witness :
    tileCount (.finite 5) (.finite 12) (.finite 2) (.finite 5)
      = (.finite 3, .finite 3) := by
  obtain ⟨h1, h2, h3⟩ := tileCount_eq_ceil 5 12 2 5
    (by norm_num) (by norm_num) (by norm_num) (by norm_num)
  rw [h2, h3] at h1
  norm_num at h1
  exact_mod_cast h1

/-- Counterexample to claim C2: with `rowsPerTile = columnsPerTile = 0` (not a
positive integer), `Table.js` does not fail: JavaScript evaluates
`5 / 0` to `Infinity` and `Math.ceil(Infinity)` to `Infinity`, so the
computation completes and returns a (useless) grid size instead of
signalling an error.  There is no validation or exception path in the code. -/
theorem tileCount_zero_divisor_returns_value :
    tileCount (.finite 5) (.finite 12) (.finite 0) (.finite 0)
      = (JSNum.posInf, JSNum.posInf) := by
  norm_num [tileCount, jsDiv, jsCeil]

/-- Amended claim C2: the tile-count computation performs no validation of
`rowsPerTile`/`columnsPerTile` and never signals an error; in particular for a
zero tile size and positive row count it returns `Infinity` rather than
failing. -/
theorem tileCount_zero_divisor (q : ℚ) (hq : 0 < q) :
    tileCount (.finite q) (.finite q) (.finite 0) (.finite 0)
      = (JSNum.posInf, JSNum.posInf) := by
  simp [tileCount, jsDiv, jsCeil, hq, hq.ne']

/-- Witness for the amended claim C2 at `nRows = nColumns = 5`. -/
theorem tileCount_zero_divisor_witness :
    tileCount (.finite 5) (.finite 5) (.finite 0) (.finite 0)
      = (JSNum.posInf, JSNum.posInf) :=
  tileCount_zero_divisor 5 (by norm_num)

/-! ### Tile fetch URL (`Table.js` `fetchTile`) -/

/-- The URL built by `fetchTile` in `src/assets/js/Report/Table.js` line 35:

  `` `/workflows/${workflowIdOrSecretId}/tiles/${stepSlug}/delta-${deltaId}/${tileRow},${tileColumn}.json` ``

`workflowIdOrSecretId` is interpolated into the template, so it is modelled by
its string form; `deltaId`, `tileRow`, `tileColumn` are numbers interpolated
by decimal rendering. -/
def fetchTileUrl (workflowIdOrSecretId stepSlug : String)
    (deltaId tileRow tileColumn : ℕ) : String :=
  "/workflows/" ++ workflowIdOrSecretId ++ "/tiles/" ++ stepSlug ++ "/delta-" ++
    toString deltaId ++ "/" ++ toString tileRow ++ "," ++ toString tileColumn ++
    ".json"

/-- Claim C3: the fetch path is a deterministic function of exactly the table
address (workflow identifier, step slug, revision id) and the tile coordinate
— equal inputs give equal paths — and the path embeds the workflow
identifier, the step slug, the decimal revision id (after the `delta-` tag),
and the decimal tile row and column, each occurring as a contiguous segment
of the path. -/
theorem fetchTileUrl_deterministic_and_embeds
    (wf slug : String) (deltaId tileRow tileColumn : ℕ) :
    (∀ wf' slug' d' r' c', wf = wf' → slug = slug' → deltaId = d' →
        tileRow = r' → tileColumn = c' →
        fetchTileUrl wf slug deltaId tileRow tileColumn
          = fetchTileUrl wf' slug' d' r' c')
    ∧ (∃ p s, fetchTileUrl wf slug deltaId tileRow tileColumn = p ++ wf ++ s)
    ∧ (∃ p s, fetchTileUrl wf slug deltaId tileRow tileColumn = p ++ slug ++ s)
    ∧ (∃ p s, fetchTileUrl wf slug deltaId tileRow tileColumn
          = p ++ ("delta-" ++ toString deltaId) ++ s)
    ∧ (∃ p s, fetchTileUrl wf slug deltaId tileRow tileColumn
          = p ++ toString tileRow ++ s)
    ∧ (∃ p s, fetchTileUrl wf slug deltaId tileRow tileColumn
          = p ++ toString tileColumn ++ s) := by
  refine ⟨?_, ?_, ?_, ?_, ?_, ?_⟩
  · intro wf' slug' d' r' c' h1 h2 h3 h4 h5
    rw [h1, h2, h3, h4, h5]
  · exact ⟨"/workflows/",
      "/tiles/" ++ slug ++ "/delta-" ++ toString deltaId ++ "/" ++
        toString tileRow ++ "," ++ toString tileColumn ++ ".json",
      by simp [fetchTileUrl, String.append_assoc]⟩
  · exact ⟨"/workflows/" ++ wf ++ "/tiles/",
      "/delta-" ++ toString deltaId ++ "/" ++ toString tileRow ++ "," ++
        toString tileColumn ++ ".json",
      by simp [fetchTileUrl, String.append_assoc]⟩
  · refine ⟨"/workflows/" ++ wf ++ "/tiles/" ++ slug ++ "/",
      "/" ++ toString tileRow ++ "," ++ toString tileColumn ++ ".json", ?_⟩
    have h : ("/delta-" : String) = "/" ++ "delta-" := by decide
    simp only [fetchTileUrl, String.append_assoc]
    rw [h, String.append_assoc]
  · exact ⟨"/workflows/" ++ wf ++ "/tiles/" ++ slug ++ "/delta-" ++
        toString deltaId ++ "/",
      "," ++ toString tileColumn ++ ".json",
      by simp [fetchTileUrl, String.append_assoc]⟩
  · exact ⟨"/workflows/" ++ wf ++ "/tiles/" ++ slug ++ "/delta-" ++
        toString deltaId ++ "/" ++ toString tileRow ++ ",",
      ".json",
      by simp [fetchTileUrl, String.append_assoc]⟩

/-! ### `updateDuplicateModule` (table-action Redux glue) -/

/-- JavaScript `s.split(',')` on the character list of `s`: cut at every
comma; `''.split(',')` is `['']`, and a trailing comma yields a trailing
empty entry. -/
def jsSplitCommaAux : List Char → List Char → List (List Char)
  | [], acc => [acc.reverse]
  | c :: rest, acc =>
      if c = ',' then acc.reverse :: jsSplitCommaAux rest []
      else jsSplitCommaAux rest (c :: acc)

/-- JavaScript `s.split(',')`. -/
def jsSplitComma (s : String) : List String :=
  (jsSplitCommaAux s.data []).map List.asString

/-- The parameter update performed by `updateDuplicateModule` in the
table-update action module: given the current `colnames` parameter value and
the duplicate column name, return the newly dispatched value, or `none` when
no action is dispatched.  Mirrors:

  `if (entriesParam.value) { if (!(entriesParam.value.split(',').includes(duplicateColumnName))) { dispatch(value + ',' + name) } } else { dispatch(name) }`

JavaScript string truthiness is non-emptiness. -/
def updateDuplicateModule (value duplicateColumnName : String) : Option String :=
  if value ≠ "" then
    if duplicateColumnName ∈ jsSplitComma value then
      none
    else
      some (value ++ "," ++ duplicateColumnName)
  else
    some duplicateColumnName

/-- Claim C10: `updateDuplicateModule` dispatches nothing when the non-empty
`colnames` value already lists the duplicate column name among its
comma-separated entries; otherwise it appends the name to the non-empty value,
or sets the name as the whole value when the value was empty. -/
theorem updateDuplicateModule_idempotent (value name : String) :
    (value ≠ "" → name ∈ jsSplitComma value →
        updateDuplicateModule value name = none)
    ∧ (value ≠ "" → name ∉ jsSplitComma value →
        updateDuplicateModule value name = some (value ++ "," ++ name))
    ∧ (value = "" → updateDuplicateModule value name = some name) := by
  refine ⟨?_, ?_, ?_⟩
  · intro hv hmem
    simp [updateDuplicateModule, hv, hmem]
  · intro hv hmem
    simp [updateDuplicateModule, hv, hmem]
  · intro hv
    simp [updateDuplicateModule, hv]

/-- Witness for C10: `"A,B"` already contains `"B"`, so nothing is
dispatched. -/
theorem updateDuplicateModule_idempotent_witness :
    updateDuplicateModule "A,B" "B" = none :=
  (updateDuplicateModule_idempotent "A,B" "B").1 (by decide) (by decide)

/-! ### `OutputPane` (`src/unnamed/part_004`): which step feeds the table -/

/-- A step's rendering status, `PropTypes.oneOf(['ok', 'busy', 'error',
'unreachable'])`. -/
inductive StepStatus where
  | ok
  | busy
  | error
  | unreachable
deriving DecidableEq

/-- An output column, `{ name, type }`. -/
structure OutputColumn where
  name : String
  type : String
deriving DecidableEq

/-- The step shape passed as props to `OutputPane` (`step` /
`stepBeforeError`).  The `htmlOutput`/`module` fields feed only the iframe and
are omitted; `stepForTable` reads none of them. -/
structure StepProps where
  id : ℤ
  slug : Option String
  status : StepStatus
  deltaId : Option ℤ
  columns : Option (List OutputColumn)
  nRows : Option ℕ
deriving DecidableEq

/-- `OutputPane.stepForTable` (`src/unnamed/part_004` lines 55-70):

  `if (stepBeforeError) return stepBeforeError`
  `else if (step && step.status !== 'error') return step`
  `else return null` -/
def stepForTable (stepBeforeError step : Option StepProps) : Option StepProps :=
  match stepBeforeError with
  | some sbe => some sbe
  | none =>
      match step with
      | some st => if st.status ≠ .error then some st else none
      | none => none

/-- A step as stored in the Redux state (`state.steps`), with the fields read
by `stepStatus` and `mapStateToProps`. -/
structure ServerStep where
  id : ℤ
  slug : Option String
  nClientRequests : ℕ
  is_busy : Bool
  output_status : Option StepStatus
  last_relevant_delta_id : Option ℤ
  cached_render_result_delta_id : Option ℤ
  output_columns : Option (List OutputColumn)
  output_n_rows : Option ℕ
deriving DecidableEq

/-- `stepStatus` (`src/unnamed/part_004` lines 138-158) on a non-null step:
busy while a client request is outstanding, while fetching, while the step is
a placeholder (`!step.output_status`), or while rendering
(`last_relevant_delta_id !== cached_render_result_delta_id`); otherwise the
step's `output_status`.  The `getD .busy` fallback is unreachable: a `none`
`output_status` is caught by the busy test. -/
def stepStatusRaw (s : ServerStep) : StepStatus :=
  if 0 < s.nClientRequests ∨ s.is_busy = true ∨ s.output_status = none ∨
      s.last_relevant_delta_id ≠ s.cached_render_result_delta_id then
    .busy
  else
    s.output_status.getD .busy

/-- The selected tab's slice of the Redux state used by `mapStateToProps`. -/
structure TabState where
  step_ids : List ℤ
  selected_step_position : ℕ
deriving DecidableEq

/-- Builds the `step` props shape from a Redux step
(`mapStateToProps`, `src/unnamed/part_004` lines 201-216, sans the
iframe-only `module`/`htmlOutput` fields). -/
def toStepProps (s : ServerStep) (status : StepStatus) : StepProps :=
  { id := s.id
    slug := s.slug
    status := status
    deltaId := s.cached_render_result_delta_id
    columns := s.output_columns
    nRows := s.output_n_rows }

/-- The `(step, stepBeforeError)` pair computed by `mapStateToProps`
(`src/unnamed/part_004` lines 160-221).  `steps` is the `state.steps` mapping
as an association list keyed by step id.  The branch reading
`stepArray[stepIndex - 1]` assumes, as the source does, that the predecessor
is present (the source would throw a `TypeError` on a missing predecessor; the
model yields no `stepBeforeError` there). -/
def mapStateToPropsSteps (steps : List (ℤ × ServerStep)) (tab : TabState) :
    Option StepProps × Option StepProps :=
  let stepArray : List (Option ServerStep) :=
    tab.step_ids.map fun i => (steps.find? (fun p => p.1 = i)).map Prod.snd
  let stepIndex := tab.selected_step_position
  let step0 : Option ServerStep := ((stepArray.get? stepIndex).getD none)
  let status : StepStatus :=
    match step0 with
    | some s => stepStatusRaw s
    | none => .busy
  let stepProps : Option StepProps :=
    match step0 with
    | some s => some (toStepProps s (stepStatusRaw s))
    | none =>
        if ((tab.step_ids.get? stepIndex).isSome : Bool) then
          some { id := -1, slug := none, status := .busy, deltaId := none,
                 columns := none, nRows := none }
        else
          none
  let stepBeforeError : Option StepProps :=
    if status = .error ∧ 0 < tab.selected_step_position then
      match ((stepArray.get? (stepIndex - 1)).getD none) with
      | some lastGood => some (toStepProps lastGood (stepStatusRaw lastGood))
      | none => none
    else
      none
  (stepProps, stepBeforeError)

/-- A fully-rendered step whose output is an error. -/
def errorStep (id : ℤ) : ServerStep :=
  { id := id
    slug := some ("step-" ++ toString id.toNat)
    nClientRequests := 0
    is_busy := false
    output_status := some .error
    last_relevant_delta_id := some 7
    cached_render_result_delta_id := some 7
    output_columns := some []
    output_n_rows := some 0 }

/-- Claim C9 is violated by the code: with two consecutive error steps
(ids 1 and 2) and the second selected, `mapStateToProps` builds a
`stepBeforeError` whose status is `'error'` — although its propTypes
declare `status: PropTypes.oneOf(['ok', 'busy', 'unreachable'])`
("can't be 'error'") — and `stepForTable` then returns that step, although
its doc comment promises it will never be an `'error'`-status step. -/
theorem stepForTable_error_status_bug :
    (let p := mapStateToPropsSteps [(1, errorStep 1), (2, errorStep 2)]
      { step_ids := [1, 2], selected_step_position := 1 }
     (p.2.map StepProps.status = some .error) ∧
       ((stepForTable p.2 p.1).map StepProps.status = some .error)) := by
  constructor <;> rfl

/-! ### `groupAutofetches` (`QuotaExceeded.js`) -/

/-- A workflow as carried by an autofetch entry: `{ id, name }`. -/
structure Workflow where
  id : ℕ
  name : String
deriving DecidableEq

/-- A step ("wfModule") as carried by an autofetch entry:
`{ id, order, fetchInterval }` (seconds between automatic fetches). -/
structure WfModule where
  id : ℕ
  order : ℕ
  fetchInterval : ℚ
deriving DecidableEq

/-- One autofetch entry: `{ workflow, tab, wfModule }` (the tab contributes
only its name). -/
structure Autofetch where
  workflow : Workflow
  tabName : String
  wfModule : WfModule
deriving DecidableEq

/-- One group built by `groupAutofetches`:
`{ workflow, nFetchesPerDay, autofetches }`. -/
structure AutofetchGroup where
  workflow : Workflow
  nFetchesPerDay : ℚ
  autofetches : List Autofetch
deriving DecidableEq

/-- One iteration of the loop body of `groupAutofetches`
(`src/assets/js/params/Custom/VersionSelect/QuotaExceeded.js` lines 8-20):
create the group for `String(autofetch.workflow.id)` if absent, then add
`86400 / autofetch.wfModule.fetchInterval` to its daily total and push the
autofetch.  JavaScript object keys are `String(workflow.id)`; `String` is
injective on the natural-number ids, so keys are modelled by the id itself.
Updating an existing key keeps its position; a new key is appended. -/
def addAutofetch (groups : List (ℕ × AutofetchGroup)) (a : Autofetch) :
    List (ℕ × AutofetchGroup) :=
  if a.workflow.id ∈ groups.map Prod.fst then
    groups.map fun p =>
      if p.1 = a.workflow.id then
        (p.1,
         { p.2 with
           nFetchesPerDay :=
             p.2.nFetchesPerDay + 86400 / a.wfModule.fetchInterval,
           autofetches := p.2.autofetches ++ [a] })
      else p
  else
    groups ++
      [(a.workflow.id,
        { workflow := a.workflow
          nFetchesPerDay := 0 + 86400 / a.wfModule.fetchInterval
          autofetches := [a] })]

/-- The `groups` object after the `for` loop of `groupAutofetches`. -/
def buildGroups (autofetches : List Autofetch) : List (ℕ × AutofetchGroup) :=
  autofetches.foldl addAutofetch []

/-- `Object.values(groups)`: for number-like string keys, JavaScript
enumerates properties in ascending numeric key order. -/
def objectValuesByKey (groups : List (ℕ × AutofetchGroup)) :
    List AutofetchGroup :=
  (List.insertionSort (fun p q => p.1 ≤ q.1) groups).map Prod.snd

/-- The order imposed by the sort comparator
`(a, b) => b.nFetchesPerDay - a.nFetchesPerDay || a.workflow.name.localeCompare(b.workflow.name)`:
`a` may precede `b` iff the comparator is `≤ 0`, i.e. descending daily totals
with ties broken by the name comparison `cmp` (`localeCompare`, supplied as a
parameter because it is locale-dependent). -/
def groupOrder (cmp : String → String → ℤ) (a b : AutofetchGroup) : Prop :=
  b.nFetchesPerDay < a.nFetchesPerDay ∨
    (b.nFetchesPerDay = a.nFetchesPerDay ∧
      cmp a.workflow.name b.workflow.name ≤ 0)

instance groupOrder.instDecidableRel (cmp : String → String → ℤ) :
    DecidableRel (groupOrder cmp) := fun a b =>
  inferInstanceAs (Decidable (b.nFetchesPerDay < a.nFetchesPerDay ∨
    (b.nFetchesPerDay = a.nFetchesPerDay ∧
      cmp a.workflow.name b.workflow.name ≤ 0)))

/-- `groupAutofetches` (`QuotaExceeded.js` lines 6-23): group the autofetches
by workflow id, then sort the groups with the comparator (JavaScript's sort
with a consistent comparator produces a stable sorted permutation, modelled
by insertion sort). -/
def groupAutofetches (cmp : String → String → ℤ)
    (autofetches : List Autofetch) : List AutofetchGroup :=
  List.insertionSort (groupOrder cmp)
    (objectValuesByKey (buildGroups autofetches))

/-- Invariant of the grouping loop: after folding `seen`, the keys are
distinct, each entry's group is keyed by its workflow id and carries exactly
the autofetches of that workflow in input order together with their daily-rate
sum, every seen workflow id has an entry, and every entry stems from a seen
autofetch. -/
def GroupsInv (seen : List Autofetch) (gs : List (ℕ × AutofetchGroup)) : Prop :=
  (gs.map Prod.fst).Nodup
  ∧ (∀ p ∈ gs, p.2.workflow.id = p.1
      ∧ p.2.autofetches = seen.filter (fun a => a.workflow.id = p.1)
      ∧ p.2.nFetchesPerDay
          = (p.2.autofetches.map fun a => 86400 / a.wfModule.fetchInterval).sum)
  ∧ (∀ a ∈ seen, a.workflow.id ∈ gs.map Prod.fst)
  ∧ (∀ p ∈ gs, ∃ a ∈ seen, a.workflow.id = p.1)

lemma addAutofetch_fst_of_mem {gs : List (ℕ × AutofetchGroup)} {a : Autofetch}
    (h : a.workflow.id ∈ gs.map Prod.fst) :
    (addAutofetch gs a).map Prod.fst = gs.map Prod.fst := by
  simp only [addAutofetch, if_pos h, List.map_map]
  refine List.map_congr_left fun p _ => ?_
  by_cases hp : p.1 = a.workflow.id <;> simp [hp]

lemma addAutofetch_fst_of_not_mem {gs : List (ℕ × AutofetchGroup)}
    {a : Autofetch} (h : a.workflow.id ∉ gs.map Prod.fst) :
    (addAutofetch gs a).map Prod.fst = gs.map Prod.fst ++ [a.workflow.id] := by
  simp [addAutofetch, if_neg h]

lemma groupsInv_addAutofetch {seen : List Autofetch}
    {gs : List (ℕ × AutofetchGroup)} (a : Autofetch)
    (hinv : GroupsInv seen gs) : GroupsInv (seen ++ [a]) (addAutofetch gs a) := by
  obtain ⟨hnd, hent, hseen, hsrc⟩ := hinv
  by_cases hmem : a.workflow.id ∈ gs.map Prod.fst
  · refine ⟨?_, ?_, ?_, ?_⟩
    · rw [addAutofetch_fst_of_mem hmem]; exact hnd
    · intro q hq
      rw [addAutofetch, if_pos hmem] at hq
      obtain ⟨p, hp, rfl⟩ := List.mem_map.mp hq
      obtain ⟨hid, hfetches, hsum⟩ := hent p hp
      by_cases hpk : p.1 = a.workflow.id
      · simp only [if_pos hpk]
        refine ⟨hid, ?_, ?_⟩
        · rw [List.filter_append, hfetches]
          simp [hpk.symm]
        · simp [hsum]
      · simp only [if_neg hpk]
        refine ⟨hid, ?_, hsum⟩
        rw [List.filter_append, hfetches]
        have : ¬(a.workflow.id = p.1) := fun h => hpk h.symm
        simp [this]
    · intro b hb
      rw [addAutofetch_fst_of_mem hmem]
      rcases List.mem_append.mp hb with hb | hb
      · exact hseen b hb
      · rw [List.mem_singleton.mp hb]; exact hmem
    · intro q hq
      rw [addAutofetch, if_pos hmem] at hq
      obtain ⟨p, hp, rfl⟩ := List.mem_map.mp hq
      obtain ⟨b, hbmem, hbid⟩ := hsrc p hp
      by_cases hpk : p.1 = a.workflow.id <;>
        exact ⟨b, List.mem_append_left _ hbmem, by simp [hpk, hbid]⟩
  · refine ⟨?_, ?_, ?_, ?_⟩
    · rw [addAutofetch_fst_of_not_mem hmem]
      rw [List.nodup_append]
      exact ⟨hnd, List.nodup_singleton _,
        fun x hx hx' => hmem ((List.mem_singleton.mp hx') ▸ hx)⟩
    · intro q hq
      rw [addAutofetch, if_neg hmem] at hq
      rcases List.mem_append.mp hq with hq | hq
      · obtain ⟨hid, hfetches, hsum⟩ := hent q hq
        have hqk : ¬(a.workflow.id = q.1) := by
          intro h
          exact hmem (h ▸ List.mem_map_of_mem Prod.fst hq)
        refine ⟨hid, ?_, hsum⟩
        rw [List.filter_append, hfetches]
        simp [hqk]
      · rw [List.mem_singleton.mp hq]
        refine ⟨rfl, ?_, by simp⟩
        have hnone : seen.filter (fun b => b.workflow.id = a.workflow.id) = [] := by
          rw [List.filter_eq_nil_iff]
          intro b hb hcontra
          exact hmem (by
            have : b.workflow.id = a.workflow.id := by simpa using hcontra
            exact this ▸ hseen b hb)
        rw [List.filter_append, hnone]
        simp
    · intro b hb
      rw [addAutofetch_fst_of_not_mem hmem]
      rcases List.mem_append.mp hb with hb | hb
      · exact List.mem_append_left _ (hseen b hb)
      · rw [List.mem_singleton.mp hb]
        exact List.mem_append_right _ (List.mem_singleton_self _)
    · intro q hq
      rw [addAutofetch, if_neg hmem] at hq
      rcases List.mem_append.mp hq with hq | hq
      · obtain ⟨b, hbmem, hbid⟩ := hsrc q hq
        exact ⟨b, List.mem_append_left _ hbmem, hbid⟩
      · rw [List.mem_singleton.mp hq]
        exact ⟨a, List.mem_append_right _ (List.mem_singleton_self _), rfl⟩

lemma groupsInv_foldl (l : List Autofetch) :
    ∀ (seen : List Autofetch) (gs : List (ℕ × AutofetchGroup)),
      GroupsInv seen gs → GroupsInv (seen ++ l) (l.foldl addAutofetch gs) := by
  induction l with
  | nil => intro seen gs h; simpa using h
  | cons a l ih =>
      intro seen gs h
      have h' := groupsInv_addAutofetch a h
      have := ih (seen ++ [a]) (addAutofetch gs a) h'
      simpa using this

lemma groupsInv_buildGroups (l : List Autofetch) :
    GroupsInv l (buildGroups l) := by
  have := groupsInv_foldl l [] [] (by
    refine ⟨List.nodup_nil, ?_, ?_, ?_⟩ <;> simp)
  simpa [buildGroups] using this

/-- Claim C8: `groupAutofetches` returns exactly one group per distinct
workflow id; each group's `nFetchesPerDay` is the sum of
`86400 / fetchInterval` over its autofetches; each group's `autofetches` are
exactly the input autofetches of that workflow in input order; and the groups
are sorted by descending `nFetchesPerDay` with ties broken by ascending
name comparison (`localeCompare`, abstracted as any total, transitive
comparator `cmp`). -/
theorem groupAutofetches_spec (cmp : String → String → ℤ)
    (htotal : ∀ x y, cmp x y ≤ 0 ∨ cmp y x ≤ 0)
    (htrans : ∀ x y z, cmp x y ≤ 0 → cmp y z ≤ 0 → cmp x z ≤ 0)
    (l : List Autofetch) :
    ((groupAutofetches cmp l).map fun g => g.workflow.id).Nodup
    ∧ (∀ k : ℕ, (∃ g ∈ groupAutofetches cmp l, g.workflow.id = k)
        ↔ ∃ a ∈ l, a.workflow.id = k)
    ∧ (∀ g ∈ groupAutofetches cmp l,
        g.autofetches = l.filter (fun a => a.workflow.id = g.workflow.id)
        ∧ g.nFetchesPerDay
            = (g.autofetches.map fun a => 86400 / a.wfModule.fetchInterval).sum)
    ∧ (groupAutofetches cmp l).Pairwise (groupOrder cmp) := by
  obtain ⟨hnd, hent, hseen, hsrc⟩ := groupsInv_buildGroups l
  have hperm : List.Perm (groupAutofetches cmp l) ((buildGroups l).map Prod.snd) := by
    unfold groupAutofetches objectValuesByKey
    exact (List.perm_insertionSort _ _).trans
      (List.Perm.map Prod.snd (List.perm_insertionSort _ _))
  have hmem_iff : ∀ g, g ∈ groupAutofetches cmp l
      ↔ ∃ p ∈ buildGroups l, p.2 = g := by
    intro g
    rw [hperm.mem_iff, List.mem_map]
  refine ⟨?_, ?_, ?_, ?_⟩
  · have hmapperm :
        List.Perm ((groupAutofetches cmp l).map fun g => g.workflow.id)
          (((buildGroups l).map Prod.snd).map fun g => g.workflow.id) :=
      hperm.map _
    rw [hmapperm.nodup_iff, List.map_map]
    have : ((buildGroups l).map fun p => p.2.workflow.id)
        = (buildGroups l).map Prod.fst :=
      List.map_congr_left fun p hp => (hent p hp).1
    rw [show ((fun g : AutofetchGroup => g.workflow.id) ∘ Prod.snd)
          = fun p : ℕ × AutofetchGroup => p.2.workflow.id from rfl, this]
    exact hnd
  · intro k
    constructor
    · rintro ⟨g, hg, rfl⟩
      obtain ⟨p, hp, rfl⟩ := (hmem_iff g).mp hg
      obtain ⟨b, hb, hbid⟩ := hsrc p hp
      exact ⟨b, hb, hbid.trans (hent p hp).1.symm⟩
    · rintro ⟨b, hb, rfl⟩
      obtain ⟨p, hp, hpk⟩ := List.mem_map.mp (hseen b hb)
      refine ⟨p.2, (hmem_iff p.2).mpr ⟨p, hp, rfl⟩, ?_⟩
      rw [(hent p hp).1, hpk]
  · intro g hg
    obtain ⟨p, hp, rfl⟩ := (hmem_iff g).mp hg
    obtain ⟨hid, hfetches, hsum⟩ := hent p hp
    exact ⟨by rw [hid, hfetches], hsum⟩
  · haveI : IsTotal AutofetchGroup (groupOrder cmp) := ⟨fun a b => by
      rcases lt_trichotomy a.nFetchesPerDay b.nFetchesPerDay with h | h | h
      · exact Or.inr (Or.inl h)
      · rcases htotal a.workflow.name b.workflow.name with hc | hc
        · exact Or.inl (Or.inr ⟨h.symm, hc⟩)
        · exact Or.inr (Or.inr ⟨h, hc⟩)
      · exact Or.inl (Or.inl h)⟩
    haveI : IsTrans AutofetchGroup (groupOrder cmp) := ⟨fun a b c hab hbc => by
      rcases hab with hab | ⟨hab1, hab2⟩
      · rcases hbc with hbc | ⟨hbc1, hbc2⟩
        · exact Or.inl (hbc.trans hab)
        · exact Or.inl (hbc1.trans_lt hab)
      · rcases hbc with hbc | ⟨hbc1, hbc2⟩
        · exact Or.inl (hbc.trans_eq hab1)
        · exact Or.inr ⟨hbc1.trans hab1,
            htrans a.workflow.name b.workflow.name c.workflow.name hab2 hbc2⟩⟩
    exact List.sorted_insertionSort _ _

/-- A demonstration input for `groupAutofetches`: workflow 1 appears twice. -/
def demoAutofetches : List Autofetch :=
  [ { workflow := { id := 1, name := "Alpha" }, tabName := "Tab 1",
      wfModule := { id := 10, order := 0, fetchInterval := 86400 } },
    { workflow := { id := 2, name := "Beta" }, tabName := "Tab 1",
      wfModule := { id := 20, order := 0, fetchInterval := 43200 } },
    { workflow := { id := 1, name := "Alpha" }, tabName := "Tab 2",
      wfModule := { id := 11, order := 1, fetchInterval := 28800 } } ]

/-- Witness for C8: with a constant comparator (total and transitive) and the
demonstration input, the returned groups have pairwise-distinct workflow
ids. -/
theorem groupAutofetches_spec_witness :
    ((groupAutofetches (fun _ _ => 0) demoAutofetches).map
      fun g => g.workflow.id).Nodup :=
  (groupAutofetches_spec (fun _ _ => 0)
    (fun _ _ => Or.inl (by norm_num))
    (fun _ _ _ _ _ => by norm_num)
    demoAutofetches).1

/-! ### Tile cache and fetch scheduler (the `useTiles` collaborator)

`Table.js` hands `fetchTile`, `nTileRows` and `nTileColumns` to `useTiles`
and receives `sparseTileGrid` and `setWantedTileRange`; the hook itself is
not part of the source bundle, so the following state machine is modelled
from the specification (sections 3-5). -/

/-- Modelled from the spec (section 3, `Loaded(rows, rowCount,
columnCount)`): a fetched tile's payload.  `useTiles` is missing from the
source bundle. -/
structure TileData where
  rows : List (List String)
  rowCount : ℕ
  columnCount : ℕ
deriving DecidableEq

/-- Modelled from the spec: a tile coordinate `{tileRow, tileColumn}`. -/
abbrev TileCoordinate := ℕ × ℕ

/-- Modelled from the spec (section 3): per-tile state
`{Unfetched, Pending(requestToken), Loaded(data), Failed(reason)}`. -/
inductive TileState where
  | unfetched
  | pending (token : ℕ)
  | loaded (data : TileData)
  | failed (reason : String)
deriving DecidableEq

/-- Modelled from the spec (section 3): the wanted viewport range
`{firstTileRow, lastTileRow, firstTileColumn, lastTileColumn}`. -/
structure ViewportRange where
  firstTileRow : ℕ
  lastTileRow : ℕ
  firstTileColumn : ℕ
  lastTileColumn : ℕ
deriving DecidableEq

/-- The tile coordinates inside a viewport range, row-major. -/
def rangeCoords (r : ViewportRange) : List TileCoordinate :=
  (List.range' r.firstTileRow (r.lastTileRow + 1 - r.firstTileRow)).flatMap
    fun row =>
      (List.range' r.firstTileColumn
        (r.lastTileColumn + 1 - r.firstTileColumn)).map fun col => (row, col)

/-- Modelled from the spec (section 4.3): `get(coord)` on the sparse tile
store; coordinates without an entry are implicitly `Unfetched`. -/
def getTile : List (TileCoordinate × TileState) → TileCoordinate → TileState
  | [], _ => .unfetched
  | (c', ts) :: rest, c => if c' = c then ts else getTile rest c

/-- Modelled from the spec (section 4.3): `set(coord, state)` on the sparse
tile store; replaces the coordinate's entry in place or appends a new one. -/
def setTile : List (TileCoordinate × TileState) → TileCoordinate → TileState →
    List (TileCoordinate × TileState)
  | [], c, ts => [(c, ts)]
  | (c', ts') :: rest, c, ts =>
      if c' = c then (c, ts) :: rest else (c', ts') :: setTile rest c ts

/-- Modelled from the spec (sections 3-5): the scheduler's whole state — the
current revision id, the sparse tile store, the monotone request-token
counter (which survives resets), and the append-only log of network calls
issued so far (coordinate and request token). -/
structure SchedState where
  revision : ℕ
  store : List (TileCoordinate × TileState)
  nextToken : ℕ
  calls : List (TileCoordinate × ℕ)
deriving DecidableEq

/-- Modelled from the spec (section 4.4 steps 1-2, and the failure-handling
rule that re-applying a range turns `Failed` back into `Pending`): schedule
one coordinate — when it is `Unfetched` or `Failed`, mark it `Pending` with a
fresh token and issue the network call; otherwise (already `Pending` or
`Loaded`) leave the state unchanged, deduplicating concurrent requests. -/
def scheduleCoord (s : SchedState) (c : TileCoordinate) : SchedState :=
  match getTile s.store c with
  | .unfetched =>
      { s with store := setTile s.store c (.pending s.nextToken),
               nextToken := s.nextToken + 1,
               calls := s.calls ++ [(c, s.nextToken)] }
  | .failed _ =>
      { s with store := setTile s.store c (.pending s.nextToken),
               nextToken := s.nextToken + 1,
               calls := s.calls ++ [(c, s.nextToken)] }
  | _ => s

/-- Schedule a list of coordinates in order. -/
def scheduleMany (s : SchedState) (cs : List TileCoordinate) : SchedState :=
  cs.foldl scheduleCoord s

/-- Modelled from the spec (section 4.4 step 1): `setWantedTileRange` — apply
a wanted viewport range by scheduling every coordinate in it. -/
def applyViewport (s : SchedState) (r : ViewportRange) : SchedState :=
  scheduleMany s (rangeCoords r)

/-- Apply the same wanted viewport range `n` times in a row. -/
def iterateViewport (s : SchedState) (r : ViewportRange) : ℕ → SchedState
  | 0 => s
  | n + 1 => iterateViewport (applyViewport s r) r n

/-- Modelled from the spec (section 4.4 step 3): delivery of a fetch result
for coordinate `c` with request token `token`; it is applied (`Loaded` on
success, `Failed` on error) only when the tile is still `Pending` with the
matching token, and discarded silently otherwise. -/
def completeFetch (s : SchedState) (c : TileCoordinate) (token : ℕ)
    (result : Except String TileData) : SchedState :=
  match getTile s.store c with
  | .pending t =>
      if t = token then
        { s with
          store := setTile s.store c
            (match result with
             | .ok d => .loaded d
             | .error e => .failed e) }
      else s
  | _ => s

/-- Modelled from the spec (sections 3 and 4.3): `reset()` on a revision-id
change clears all tiles back to `Unfetched`; the token counter survives, so
stale results can never match a future token. -/
def resetStore (s : SchedState) (newRevision : ℕ) : SchedState :=
  { revision := newRevision, store := [], nextToken := s.nextToken,
    calls := s.calls }

/-- Modelled from the spec (section 5): the scheduler's atomic transitions —
applying a wanted range, delivering the result of a previously issued fetch,
and resetting on a strictly newer revision id. -/
inductive SchedStep : SchedState → SchedState → Prop where
  | view (s : SchedState) (r : ViewportRange) : SchedStep s (applyViewport s r)
  | complete (s : SchedState) (c : TileCoordinate) (token : ℕ)
      (result : Except String TileData) (h : (c, token) ∈ s.calls) :
      SchedStep s (completeFetch s c token result)
  | invalidate (s : SchedState) (newRevision : ℕ)
      (h : s.revision < newRevision) : SchedStep s (resetStore s newRevision)

/-- The scheduler's initial state: no tiles, no calls. -/
def initSched : SchedState :=
  { revision := 0, store := [], nextToken := 0, calls := [] }

/-- Scheduler states reachable from the initial state. -/
def SchedReachable (s : SchedState) : Prop :=
  Relation.ReflTransGen SchedStep initSched s

/-- Network calls issued so far for coordinate `c`. -/
def countCalls (s : SchedState) (c : TileCoordinate) : ℕ :=
  s.calls.countP fun p => p.1 = c

lemma getTile_setTile_self (st : List (TileCoordinate × TileState))
    (c : TileCoordinate) (ts : TileState) : getTile (setTile st c ts) c = ts := by
  induction st with
  | nil => simp [setTile, getTile]
  | cons p rest ih =>
      obtain ⟨c', ts'⟩ := p
      by_cases h : c' = c
      · simp [setTile, getTile, h]
      · simp [setTile, getTile, h, ih]

lemma getTile_setTile_ne (st : List (TileCoordinate × TileState))
    {c c' : TileCoordinate} (ts : TileState) (h : c' ≠ c) :
    getTile (setTile st c ts) c' = getTile st c' := by
  have hcc : c ≠ c' := fun hc => h hc.symm
  induction st with
  | nil => simp [setTile, getTile, hcc]
  | cons p rest ih =>
      obtain ⟨c₀, ts₀⟩ := p
      by_cases h0 : c₀ = c
      · subst h0
        simp [setTile, getTile, hcc]
      · simp only [setTile, if_neg h0, getTile]
        by_cases h1 : c₀ = c'
        · simp [h1]
        · simp [h1, ih]

lemma setTile_map_fst (st : List (TileCoordinate × TileState))
    (c : TileCoordinate) (ts : TileState) :
    (setTile st c ts).map Prod.fst =
      if c ∈ st.map Prod.fst then st.map Prod.fst
      else st.map Prod.fst ++ [c] := by
  induction st with
  | nil => simp [setTile]
  | cons p rest ih =>
      obtain ⟨c₀, ts₀⟩ := p
      by_cases h0 : c₀ = c
      · subst h0
        simp [setTile]
      · have : ¬c = c₀ := fun h => h0 h.symm
        by_cases hm : c ∈ rest.map Prod.fst <;>
          simp [setTile, h0, this, hm, ih]

lemma setTile_nodup {st : List (TileCoordinate × TileState)}
    (c : TileCoordinate) (ts : TileState) (h : (st.map Prod.fst).Nodup) :
    ((setTile st c ts).map Prod.fst).Nodup := by
  rw [setTile_map_fst]
  by_cases hm : c ∈ st.map Prod.fst
  · simpa [hm] using h
  · rw [if_neg hm, List.nodup_append]
    exact ⟨h, List.nodup_singleton _,
      fun x hx hx' => hm ((List.mem_singleton.mp hx') ▸ hx)⟩

lemma mem_setTile {st : List (TileCoordinate × TileState)}
    {c : TileCoordinate} {ts : TileState} {p : TileCoordinate × TileState}
    (h : p ∈ setTile st c ts) : p = (c, ts) ∨ p ∈ st := by
  induction st with
  | nil => simpa [setTile] using h
  | cons q rest ih =>
      obtain ⟨c₀, ts₀⟩ := q
      by_cases h0 : c₀ = c
      · subst h0
        rw [setTile, if_pos rfl] at h
        rcases List.mem_cons.mp h with h | h
        · exact Or.inl h
        · exact Or.inr (List.mem_cons_of_mem _ h)
      · rw [setTile, if_neg h0] at h
        rcases List.mem_cons.mp h with h | h
        · exact Or.inr (h ▸ List.mem_cons_self _ _)
        · rcases ih h with h | h
          · exact Or.inl h
          · exact Or.inr (List.mem_cons_of_mem _ h)

lemma getTile_mem {st : List (TileCoordinate × TileState)}
    {c : TileCoordinate} {ts : TileState} (h : getTile st c = ts)
    (hne : ts ≠ .unfetched) : (c, ts) ∈ st := by
  induction st with
  | nil =>
      simp only [getTile] at h
      exact absurd h.symm hne
  | cons p rest ih =>
      obtain ⟨c₀, ts₀⟩ := p
      by_cases h0 : c₀ = c
      · subst h0
        rw [getTile, if_pos rfl] at h
        exact h ▸ List.mem_cons_self _ _
      · rw [getTile, if_neg h0] at h
        exact List.mem_cons_of_mem _ (ih h)

lemma scheduleCoord_of_unfetched {s : SchedState} {c : TileCoordinate}
    (h : getTile s.store c = .unfetched) :
    scheduleCoord s c =
      { s with store := setTile s.store c (.pending s.nextToken),
               nextToken := s.nextToken + 1,
               calls := s.calls ++ [(c, s.nextToken)] } := by
  simp [scheduleCoord, h]

lemma scheduleCoord_of_failed {s : SchedState} {c : TileCoordinate}
    {e : String} (h : getTile s.store c = .failed e) :
    scheduleCoord s c =
      { s with store := setTile s.store c (.pending s.nextToken),
               nextToken := s.nextToken + 1,
               calls := s.calls ++ [(c, s.nextToken)] } := by
  simp [scheduleCoord, h]

lemma scheduleCoord_of_pending {s : SchedState} {c : TileCoordinate} {t : ℕ}
    (h : getTile s.store c = .pending t) : scheduleCoord s c = s := by
  simp [scheduleCoord, h]

lemma scheduleCoord_of_loaded {s : SchedState} {c : TileCoordinate}
    {d : TileData} (h : getTile s.store c = .loaded d) :
    scheduleCoord s c = s := by
  simp [scheduleCoord, h]

lemma scheduleCoord_other {s : SchedState} {c c' : TileCoordinate}
    (hne : c ≠ c') :
    getTile (scheduleCoord s c').store c = getTile s.store c
    ∧ countCalls (scheduleCoord s c') c = countCalls s c := by
  have hf : ¬(c' = c) := fun h => hne h.symm
  cases hg : getTile s.store c' with
  | unfetched =>
      rw [scheduleCoord_of_unfetched hg]
      exact ⟨getTile_setTile_ne _ _ hne,
        by simp [countCalls, List.countP_append, List.countP_cons, hf]⟩
  | failed e =>
      rw [scheduleCoord_of_failed hg]
      exact ⟨getTile_setTile_ne _ _ hne,
        by simp [countCalls, List.countP_append, List.countP_cons, hf]⟩
  | pending t => rw [scheduleCoord_of_pending hg]; exact ⟨rfl, rfl⟩
  | loaded d => rw [scheduleCoord_of_loaded hg]; exact ⟨rfl, rfl⟩

lemma scheduleMany_pending {cs : List TileCoordinate} {s : SchedState}
    {c : TileCoordinate} {t : ℕ} (h : getTile s.store c = .pending t) :
    getTile (scheduleMany s cs).store c = .pending t
    ∧ countCalls (scheduleMany s cs) c = countCalls s c := by
  induction cs generalizing s with
  | nil => exact ⟨h, rfl⟩
  | cons c' cs ih =>
      rw [show scheduleMany s (c' :: cs) = scheduleMany (scheduleCoord s c') cs
        from rfl]
      by_cases hcc : c' = c
      · subst hcc
        rw [scheduleCoord_of_pending h]
        exact ih h
      · obtain ⟨hg, hcnt⟩ := scheduleCoord_other (fun hc => hcc hc.symm)
        obtain ⟨hg2, hcnt2⟩ := ih (s := scheduleCoord s c') (hg.trans h)
        exact ⟨hg2, hcnt2.trans hcnt⟩

lemma scheduleMany_unfetched_issue {cs : List TileCoordinate} {s : SchedState}
    {c : TileCoordinate} (hm : c ∈ cs) (hu : getTile s.store c = .unfetched) :
    (∃ t, getTile (scheduleMany s cs).store c = .pending t)
    ∧ countCalls (scheduleMany s cs) c = countCalls s c + 1 := by
  induction cs generalizing s with
  | nil => cases hm
  | cons c' cs ih =>
      rw [show scheduleMany s (c' :: cs) = scheduleMany (scheduleCoord s c') cs
        from rfl]
      by_cases hcc : c' = c
      · subst hcc
        rw [scheduleCoord_of_unfetched hu]
        set s1 : SchedState :=
          { s with store := setTile s.store c' (.pending s.nextToken),
                   nextToken := s.nextToken + 1,
                   calls := s.calls ++ [(c', s.nextToken)] } with hs1
        have hpend : getTile s1.store c' = .pending s.nextToken := by
          rw [hs1]
          exact getTile_setTile_self _ _ _
        obtain ⟨hg2, hcnt2⟩ := @scheduleMany_pending cs s1 c' s.nextToken hpend
        refine ⟨⟨s.nextToken, hg2⟩, ?_⟩
        rw [hcnt2, hs1]
        simp [countCalls, List.countP_append, List.countP_cons]
      · obtain ⟨hg, hcnt⟩ := scheduleCoord_other (fun hc => hcc hc.symm)
        have hm' : c ∈ cs := by
          rcases List.mem_cons.mp hm with h | h
          · exact absurd h.symm hcc
          · exact h
        obtain ⟨hex, hcnt2⟩ := ih (s := scheduleCoord s c') hm' (hg.trans hu)
        exact ⟨hex, by rw [hcnt2, hcnt]⟩

lemma iterateViewport_pending {n : ℕ} {s : SchedState} {r : ViewportRange}
    {c : TileCoordinate} {t : ℕ} (h : getTile s.store c = .pending t) :
    getTile (iterateViewport s r n).store c = .pending t
    ∧ countCalls (iterateViewport s r n) c = countCalls s c := by
  induction n generalizing s with
  | zero => exact ⟨h, rfl⟩
  | succ n ih =>
      obtain ⟨hg, hcnt⟩ := @scheduleMany_pending (rangeCoords r) s c t h
      obtain ⟨hg2, hcnt2⟩ := ih (s := applyViewport s r) hg
      exact ⟨hg2, hcnt2.trans hcnt⟩

lemma scheduleCoord_store_nodup {s : SchedState} (c : TileCoordinate)
    (h : (s.store.map Prod.fst).Nodup) :
    ((scheduleCoord s c).store.map Prod.fst).Nodup := by
  cases hg : getTile s.store c with
  | unfetched => rw [scheduleCoord_of_unfetched hg]; exact setTile_nodup _ _ h
  | failed e => rw [scheduleCoord_of_failed hg]; exact setTile_nodup _ _ h
  | pending t => rw [scheduleCoord_of_pending hg]; exact h
  | loaded d => rw [scheduleCoord_of_loaded hg]; exact h

lemma scheduleMany_store_nodup {cs : List TileCoordinate} {s : SchedState}
    (h : (s.store.map Prod.fst).Nodup) :
    ((scheduleMany s cs).store.map Prod.fst).Nodup := by
  induction cs generalizing s with
  | nil => exact h
  | cons c cs ih =>
      show ((scheduleMany (scheduleCoord s c) cs).store.map Prod.fst).Nodup
      exact ih (scheduleCoord_store_nodup c h)

lemma completeFetch_store_nodup {s : SchedState} {c : TileCoordinate}
    {token : ℕ} {result : Except String TileData}
    (h : (s.store.map Prod.fst).Nodup) :
    ((completeFetch s c token result).store.map Prod.fst).Nodup := by
  cases hg : getTile s.store c with
  | pending t =>
      by_cases ht : t = token
      · simp only [completeFetch, hg, if_pos ht]
        exact setTile_nodup _ _ h
      · simp only [completeFetch, hg, if_neg ht]
        exact h
  | unfetched => simp only [completeFetch, hg]; exact h
  | loaded d => simp only [completeFetch, hg]; exact h
  | failed e => simp only [completeFetch, hg]; exact h

lemma schedStep_store_nodup {s s' : SchedState} (hstep : SchedStep s s')
    (h : (s.store.map Prod.fst).Nodup) :
    ((s'.store.map Prod.fst).Nodup) := by
  cases hstep with
  | view r => exact scheduleMany_store_nodup h
  | complete c token result hmem => exact completeFetch_store_nodup h
  | invalidate newRev hrev => simp [resetStore]

lemma schedReachable_store_nodup {s : SchedState} (h : SchedReachable s) :
    (s.store.map Prod.fst).Nodup := by
  induction h with
  | refl => simp [initSched]
  | tail _ hstep ih => exact schedStep_store_nodup hstep ih

/-- Claim C4: in every reachable scheduler state the sparse store holds at
most one entry — hence at most one `Pending` fetch — per tile coordinate,
and after `N ≥ 1` applications of a viewport range containing a coordinate
that was `Unfetched`, exactly one network call has been issued for that
coordinate (the first application issues it; the later ones see the tile
`Pending` and are deduplicated). -/
theorem schedulerDedup (s : SchedState) (hreach : SchedReachable s)
    (r : ViewportRange) (c : TileCoordinate) (N : ℕ) (hN : 0 < N)
    (hc : c ∈ rangeCoords r) (hu : getTile s.store c = .unfetched) :
    (s.store.map Prod.fst).Nodup
    ∧ countCalls (iterateViewport s r N) c = countCalls s c + 1 := by
  refine ⟨schedReachable_store_nodup hreach, ?_⟩
  obtain ⟨n, rfl⟩ : ∃ n, N = n + 1 := ⟨N - 1, by omega⟩
  obtain ⟨⟨t, hp⟩, hcount⟩ :=
    @scheduleMany_unfetched_issue (rangeCoords r) s c hc hu
  have hp2 : getTile (applyViewport s r).store c = .pending t := hp
  have hcount2 : countCalls (applyViewport s r) c = countCalls s c + 1 := hcount
  obtain ⟨hp3, hc3⟩ := iterateViewport_pending (n := n) (r := r) hp2
  show countCalls (iterateViewport (applyViewport s r) r n) c = _
  rw [hc3]
  exact hcount2

/-- Witness for C4: from the initial state, one application of the single-tile
range issues exactly one call for tile `(0, 0)`. -/
theorem schedulerDedup_witness :
    ((initSched.store.map Prod.fst).Nodup
      ∧ countCalls (iterateViewport initSched ⟨0, 0, 0, 0⟩ 1) (0, 0)
          = countCalls initSched (0, 0) + 1) :=
  schedulerDedup initSched Relation.ReflTransGen.refl ⟨0, 0, 0, 0⟩ (0, 0) 1
    (by norm_num) (by decide) rfl

/-- Every `Pending` token in the store was drawn from the token counter. -/
def pendingTokensBelow (s : SchedState) : Prop :=
  ∀ p ∈ s.store, ∀ tk, p.2 = TileState.pending tk → tk < s.nextToken

/-- Every `Pending` token in the store is at least `B`, and so is the token
counter. -/
def pendingTokensAtLeast (B : ℕ) (s : SchedState) : Prop :=
  B ≤ s.nextToken
  ∧ ∀ p ∈ s.store, ∀ tk, p.2 = TileState.pending tk → B ≤ tk

lemma completeFetch_of_ne {s : SchedState} {c : TileCoordinate} {token : ℕ}
    {result : Except String TileData}
    (h : getTile s.store c ≠ .pending token) :
    completeFetch s c token result = s := by
  cases hg : getTile s.store c with
  | pending t =>
      have ht : ¬(t = token) := fun hh => h (hh ▸ hg)
      simp [completeFetch, hg, ht]
  | unfetched => simp [completeFetch, hg]
  | loaded d => simp [completeFetch, hg]
  | failed e => simp [completeFetch, hg]

lemma pendingTokensAtLeast_scheduleCoord {B : ℕ} {s : SchedState}
    (c : TileCoordinate) (h : pendingTokensAtLeast B s) :
    pendingTokensAtLeast B (scheduleCoord s c) := by
  obtain ⟨hB, hst⟩ := h
  have hissue :
      pendingTokensAtLeast B
        { s with store := setTile s.store c (.pending s.nextToken),
                 nextToken := s.nextToken + 1,
                 calls := s.calls ++ [(c, s.nextToken)] } := by
    refine ⟨?_, ?_⟩
    · show B ≤ s.nextToken + 1
      omega
    intro p hp tk htk
    rcases mem_setTile hp with rfl | hp
    · simp only at htk
      cases htk
      exact hB
    · exact hst p hp tk htk
  cases hg : getTile s.store c with
  | unfetched => rw [scheduleCoord_of_unfetched hg]; exact hissue
  | failed e => rw [scheduleCoord_of_failed hg]; exact hissue
  | pending t => rw [scheduleCoord_of_pending hg]; exact ⟨hB, hst⟩
  | loaded d => rw [scheduleCoord_of_loaded hg]; exact ⟨hB, hst⟩

lemma pendingTokensAtLeast_scheduleMany {B : ℕ} {cs : List TileCoordinate}
    {s : SchedState} (h : pendingTokensAtLeast B s) :
    pendingTokensAtLeast B (scheduleMany s cs) := by
  induction cs generalizing s with
  | nil => exact h
  | cons c cs ih =>
      rw [show scheduleMany s (c :: cs) = scheduleMany (scheduleCoord s c) cs
        from rfl]
      exact ih (pendingTokensAtLeast_scheduleCoord c h)

lemma pendingTokensAtLeast_completeFetch {B : ℕ} {s : SchedState}
    {c : TileCoordinate} {token : ℕ} {result : Except String TileData}
    (h : pendingTokensAtLeast B s) :
    pendingTokensAtLeast B (completeFetch s c token result) := by
  obtain ⟨hB, hst⟩ := h
  cases hg : getTile s.store c with
  | pending t =>
      by_cases ht : t = token
      · simp only [completeFetch, hg, if_pos ht]
        refine ⟨hB, ?_⟩
        intro p hp tk htk
        rcases mem_setTile hp with rfl | hp
        · cases result <;> simp only at htk <;> cases htk
        · exact hst p hp tk htk
      · simp only [completeFetch, hg, if_neg ht]
        exact ⟨hB, hst⟩
  | unfetched => simp only [completeFetch, hg]; exact ⟨hB, hst⟩
  | loaded d => simp only [completeFetch, hg]; exact ⟨hB, hst⟩
  | failed e => simp only [completeFetch, hg]; exact ⟨hB, hst⟩

lemma pendingTokensAtLeast_step {B : ℕ} {s s' : SchedState}
    (hstep : SchedStep s s') (h : pendingTokensAtLeast B s) :
    pendingTokensAtLeast B s' := by
  cases hstep with
  | view r => exact pendingTokensAtLeast_scheduleMany h
  | complete c token result hmem => exact pendingTokensAtLeast_completeFetch h
  | invalidate newRev hrev =>
      exact ⟨h.1, by intro p hp tk htk; cases hp⟩

lemma pendingTokensAtLeast_reach {B : ℕ} {s s' : SchedState}
    (h : Relation.ReflTransGen SchedStep s s')
    (hb : pendingTokensAtLeast B s) : pendingTokensAtLeast B s' := by
  induction h with
  | refl => exact hb
  | tail _ hstep ih => exact pendingTokensAtLeast_step hstep ih

/-- Claim C5, stale-result suppression: a completing fetch mutates the state
only when its tile is still `Pending` with the matching token; and once the
store is reset, a fetch that was `Pending` before the reset can never mutate
any state reachable from the reset state — its token is below every token
that can ever be `Pending` again. -/
theorem staleResultSuppression :
    (∀ (s : SchedState) (c : TileCoordinate) (token : ℕ)
        (result : Except String TileData),
        getTile s.store c ≠ .pending token →
        completeFetch s c token result = s)
    ∧ (∀ (s : SchedState) (c : TileCoordinate) (t : ℕ)
        (result : Except String TileData) (newRevision : ℕ) (s' : SchedState),
        pendingTokensBelow s →
        getTile s.store c = .pending t →
        Relation.ReflTransGen SchedStep (resetStore s newRevision) s' →
        completeFetch s' c t result = s') := by
  constructor
  · exact fun s c token result h => completeFetch_of_ne h
  · intro s c t result newRev s' hbelow hget hreach
    have hmem : (c, TileState.pending t) ∈ s.store :=
      getTile_mem hget (by simp)
    have htlt : t < s.nextToken := hbelow _ hmem t rfl
    have hinit : pendingTokensAtLeast s.nextToken (resetStore s newRev) :=
      ⟨le_refl _, by intro p hp tk htk; cases hp⟩
    have hfin := pendingTokensAtLeast_reach hreach hinit
    apply completeFetch_of_ne
    intro hpend
    have hmem' : (c, TileState.pending t) ∈ s'.store :=
      getTile_mem hpend (by simp)
    have := hfin.2 _ hmem' t rfl
    omega

/-- A concrete fetched tile. -/
def demoTile : TileData := { rows := [["a"]], rowCount := 1, columnCount := 1 }

/-- A state with one `Pending` fetch (token 0) for tile `(0, 0)`. -/
def demoPendingState : SchedState :=
  { revision := 0, store := [((0, 0), .pending 0)], nextToken := 1,
    calls := [((0, 0), 0)] }

/-- Witness for C5: after a reset, the old pending fetch's result is
discarded — the reset state is unchanged by its completion. -/
theorem staleResultSuppression_witness :
    completeFetch (resetStore demoPendingState 1) (0, 0) 0 (Except.ok demoTile)
      = resetStore demoPendingState 1 :=
  staleResultSuppression.2 demoPendingState (0, 0) 0 (Except.ok demoTile) 1
    (resetStore demoPendingState 1)
    (by
      intro p hp tk htk
      rw [show demoPendingState.store = [((0, 0), TileState.pending 0)]
        from rfl, List.mem_singleton] at hp
      subst hp
      simp only at htk
      cases htk
      norm_num [demoPendingState])
    rfl
    Relation.ReflTransGen.refl

lemma scheduleMany_all_loaded {cs : List TileCoordinate} {s : SchedState}
    (h : ∀ c ∈ cs, ∃ d, getTile s.store c = .loaded d) :
    scheduleMany s cs = s := by
  induction cs with
  | nil => rfl
  | cons c cs ih =>
      obtain ⟨d, hd⟩ := h c (List.mem_cons_self _ _)
      rw [show scheduleMany s (c :: cs) = scheduleMany (scheduleCoord s c) cs
        from rfl, scheduleCoord_of_loaded hd]
      exact ih fun c' hc' => h c' (List.mem_cons_of_mem _ hc')

/-- Claim C6, idempotence of viewport reconciliation: applying a viewport
range whose tiles are all already `Loaded` leaves the scheduler state —
in particular the store and the log of issued network calls — unchanged. -/
theorem viewportIdempotent (s : SchedState) (r : ViewportRange)
    (h : ∀ c ∈ rangeCoords r, ∃ d, getTile s.store c = .loaded d) :
    applyViewport s r = s ∧ (applyViewport s r).calls = s.calls := by
  have heq : applyViewport s r = s := scheduleMany_all_loaded h
  exact ⟨heq, by rw [heq]⟩

/-- A state with tile `(0, 0)` already `Loaded`. -/
def demoLoadedState : SchedState :=
  { revision := 0, store := [((0, 0), .loaded demoTile)], nextToken := 1,
    calls := [((0, 0), 0)] }

/-- Witness for C6: re-requesting the single-tile viewport over a `Loaded`
tile changes nothing and issues no call. -/
theorem viewportIdempotent_witness :
    applyViewport demoLoadedState ⟨0, 0, 0, 0⟩ = demoLoadedState
    ∧ (applyViewport demoLoadedState ⟨0, 0, 0, 0⟩).calls
        = demoLoadedState.calls :=
  viewportIdempotent demoLoadedState ⟨0, 0, 0, 0⟩
    (by
      intro c hc
      rw [show rangeCoords ⟨0, 0, 0, 0⟩ = [(0, 0)] from rfl,
        List.mem_singleton] at hc
      subst hc
      exact ⟨demoTile, rfl⟩)

lemma scheduleMany_revision (cs : List TileCoordinate) (s : SchedState) :
    (scheduleMany s cs).revision = s.revision := by
  induction cs generalizing s with
  | nil => rfl
  | cons c cs ih =>
      rw [show scheduleMany s (c :: cs) = scheduleMany (scheduleCoord s c) cs
        from rfl, ih]
      cases hg : getTile s.store c with
      | unfetched => rw [scheduleCoord_of_unfetched hg]
      | failed e => rw [scheduleCoord_of_failed hg]
      | pending t => rw [scheduleCoord_of_pending hg]
      | loaded d => rw [scheduleCoord_of_loaded hg]

lemma scheduleMany_loaded_pres {cs : List TileCoordinate} {s : SchedState}
    {c : TileCoordinate} {d : TileData} (h : getTile s.store c = .loaded d) :
    getTile (scheduleMany s cs).store c = .loaded d := by
  induction cs generalizing s with
  | nil => exact h
  | cons c' cs ih =>
      rw [show scheduleMany s (c' :: cs) = scheduleMany (scheduleCoord s c') cs
        from rfl]
      by_cases hcc : c' = c
      · subst hcc
        rw [scheduleCoord_of_loaded h]
        exact ih h
      · have hg :=
          (@scheduleCoord_other s c c' (fun hc => hcc hc.symm)).1
        exact ih (s := scheduleCoord s c') (hg.trans h)

lemma completeFetch_revision (s : SchedState) (c : TileCoordinate)
    (token : ℕ) (result : Except String TileData) :
    (completeFetch s c token result).revision = s.revision := by
  cases hg : getTile s.store c with
  | pending t =>
      by_cases ht : t = token
      · simp [completeFetch, hg, ht]
      · simp [completeFetch, hg, ht]
  | unfetched => simp [completeFetch, hg]
  | loaded d => simp [completeFetch, hg]
  | failed e => simp [completeFetch, hg]

lemma completeFetch_loaded_pres {s : SchedState} {c c' : TileCoordinate}
    {token : ℕ} {result : Except String TileData} {d : TileData}
    (h : getTile s.store c' = .loaded d) :
    getTile (completeFetch s c token result).store c' = .loaded d := by
  cases hg : getTile s.store c with
  | pending t =>
      by_cases ht : t = token
      · have hcc : c' ≠ c := by
          intro he
          rw [he, hg] at h
          cases h
        simp only [completeFetch, hg, if_pos ht]
        rw [getTile_setTile_ne _ _ hcc]
        exact h
      · simp only [completeFetch, hg, if_neg ht]
        exact h
  | unfetched => simp only [completeFetch, hg]; exact h
  | loaded d₀ => simp only [completeFetch, hg]; exact h
  | failed e => simp only [completeFetch, hg]; exact h

/-- Claim C7: across any scheduler transition, a `Loaded` tile is never
silently overwritten — it survives unchanged with the revision unchanged —
except when the revision id changes to a strictly newer one, in which case
every tile (all previously fetched data) is invalidated back to
`Unfetched`. -/
theorem loadedTilePreservation (s s' : SchedState) (hstep : SchedStep s s')
    (c : TileCoordinate) (d : TileData) (h : getTile s.store c = .loaded d) :
    (s'.revision = s.revision ∧ getTile s'.store c = .loaded d)
    ∨ (s.revision < s'.revision
        ∧ ∀ c', getTile s'.store c' = .unfetched) := by
  cases hstep with
  | view r =>
      exact Or.inl ⟨scheduleMany_revision _ _, scheduleMany_loaded_pres h⟩
  | complete c₀ token result hmem =>
      exact Or.inl ⟨completeFetch_revision _ _ _ _, completeFetch_loaded_pres h⟩
  | invalidate newRev hrev =>
      exact Or.inr ⟨hrev, fun c' => rfl⟩

/-- Witness for C7: delivering a (stale) fetch result for an already
`Loaded` tile leaves the tile and the revision unchanged. -/
theorem loadedTilePreservation_witness :
    (completeFetch demoLoadedState (0, 0) 0 (Except.ok demoTile)).revision
        = demoLoadedState.revision
    ∧ getTile (completeFetch demoLoadedState (0, 0) 0
        (Except.ok demoTile)).store (0, 0) = .loaded demoTile :=
  (loadedTilePreservation demoLoadedState _
      (SchedStep.complete demoLoadedState (0, 0) 0 (Except.ok demoTile)
        (by decide))
      (0, 0) demoTile rfl).resolve_right
    (fun hr => absurd hr.1 (by decide))

/-- Witness for C3 at a concrete address and coordinate: the path is the
expected literal, and re-invoking with the same inputs yields the same
path. -/
theorem fetchTileUrl_deterministic_and_embeds_witness :
    fetchTileUrl "10" "step-1" 2 3 4
        = "/workflows/10/tiles/step-1/delta-2/3,4.json"
    ∧ fetchTileUrl "10" "step-1" 2 3 4 = fetchTileUrl "10" "step-1" 2 3 4 :=
  ⟨by decide,
   (fetchTileUrl_deterministic_and_embeds "10" "step-1" 2 3 4).1
     "10" "step-1" 2 3 4 rfl rfl rfl rfl rfl⟩
